import Mathlib

/-!
Verification of the round session engine of the "El Impostor" app
(src/src/App.tsx), a pass-the-device social deduction game.

The embedding models the component state declared with useState
(lines 21-36 of App.tsx) as a record, and each handler as a pure
function on that record.  Randomness (Math.random) is modelled as a
stream of rationals, each assumed to lie in the interval [0, 1); a
floor-scaled draw `Math.floor(Math.random() * len)` becomes
`ratIndex`.  Fire-and-forget side effects (confetti) are modelled as
an extra boolean output.  Handlers that the JSX only attaches while a
given phase is rendered are wrapped in event-level dispatch functions
carrying that render guard.
-/

namespace ElImpostor

/-- Game phase, from `type GameState` (App.tsx line 12).  The value
strings used at runtime are setup, playing and finished; the reveal
string is declared in the union but never assigned, so it is omitted. -/
inductive GameState where
  | setup
  | playing
  | finished
deriving DecidableEq, Repr

/-- Game mode, from `type GameMode` (App.tsx line 13). -/
inductive GameMode where
  | classic
  | uncertainty
deriving DecidableEq, Repr

/-- A player, from `interface Player` (App.tsx lines 15-18). -/
structure Player where
  id : String
  name : String
deriving DecidableEq, Repr

/-- The default three-player seed used both at bootstrap (lines 23-27)
and by resetGame (lines 110-114). -/
def defaultPlayers : List Player :=
  [⟨"1", "Jugador 1"⟩, ⟨"2", "Jugador 2"⟩, ⟨"3", "Jugador 3"⟩]

/-- The component state: one field per useState hook of the session
engine (App.tsx lines 21-36).  Presentation-only hooks
(newPlayerName, editingPlayerId, showRules) are out of scope. -/
structure AppState where
  gameState : GameState
  gameMode : GameMode
  players : List Player
  impostorIndices : List Nat
  currentWord : String
  currentPlayerIndex : Nat
  isRevealed : Bool
  round : Nat
  isPressed : Bool
deriving DecidableEq, Repr

/-- The initial state of the component (the useState initial values,
App.tsx lines 21-36). -/
def initState : AppState :=
  { gameState := GameState.setup
    gameMode := GameMode.classic
    players := defaultPlayers
    impostorIndices := []
    currentWord := ""
    currentPlayerIndex := 0
    isRevealed := false
    round := 1
    isPressed := false }

/-- The floor-scaled random draw `Math.floor(q * len)` where q is a
Math.random() result in [0, 1). -/
def ratIndex (q : ℚ) (len : Nat) : Nat :=
  (Int.floor (q * (len : ℚ))).toNat

/-- A random stream is valid when every draw lies in [0, 1), the
contract of Math.random(). -/
def ValidRand (r : Nat → ℚ) : Prop :=
  ∀ i, 0 ≤ r i ∧ r i < 1

/-- removePlayer (App.tsx lines 45-49): only filters when the roster
holds strictly more than 3 players. -/
def removePlayer (pid : String) (players : List Player) : List Player :=
  if 3 < players.length then players.filter (fun p => p.id != pid) else players

/-- A sequence of removePlayer calls, applied left to right. -/
def removeAll (pids : List String) (players : List Player) : List Player :=
  pids.foldl (fun ps i => removePlayer i ps) players

/-- Classic-mode impostor indices (App.tsx line 58):
`[Math.floor(Math.random() * players.length)]`. -/
def classicIndices (n : Nat) (q : ℚ) : List Nat :=
  [ratIndex q n]

/-- Uncertainty-mode impostor count (App.tsx line 61):
`Math.floor(Math.random() * (players.length - 1)) + 1`. -/
def numImpostors (n : Nat) (q : ℚ) : Nat :=
  ratIndex q (n - 1) + 1

/-- The uncertainty-mode draw loop (App.tsx lines 63-66): k times,
pick a random position of the remaining pool and splice it out.
`pool.splice(randomIndex, 1)[0]` is the element at that position
(`getD` with default 0; the index is always in range because every
draw is below 1), and the spliced pool is `eraseIdx`. -/
def drawImpostors (r : Nat → ℚ) : Nat → List Nat → List Nat
  | 0, _ => []
  | k + 1, pool =>
    pool.getD (ratIndex (r 0) pool.length) 0 ::
      drawImpostors (fun i => r (i + 1)) k
        (pool.eraseIdx (ratIndex (r 0) pool.length))

/-- The impostor indices computed by startGame (App.tsx lines 56-67),
consuming the random stream in call order: in uncertainty mode draw 0
is the count and draws 1..k feed the loop. -/
def roundIndices (mode : GameMode) (n : Nat) (r : Nat → ℚ) : List Nat :=
  match mode with
  | GameMode.classic => classicIndices n (r 0)
  | GameMode.uncertainty =>
    drawImpostors (fun i => r (i + 1)) (numImpostors n (r 0)) (List.range n)

/-- How many random draws the index computation consumed; the word
draw (App.tsx line 69) is the next one. -/
def roundDraws (mode : GameMode) (n : Nat) (r : Nat → ℚ) : Nat :=
  match mode with
  | GameMode.classic => 1
  | GameMode.uncertainty => 1 + numImpostors n (r 0)

/-- startGame (App.tsx lines 55-84).  All setX calls read the state
captured at invocation time, so the round increment condition
`gameState === finished` tests the phase before the update. -/
def startGame (r : Nat → ℚ) (words : List String) (s : AppState) : AppState :=
  { s with
    impostorIndices := roundIndices s.gameMode s.players.length r
    currentWord :=
      words.getD (ratIndex (r (roundDraws s.gameMode s.players.length r)) words.length) ""
    currentPlayerIndex := 0
    gameState := GameState.playing
    isRevealed := false
    isPressed := false
    round := if s.gameState = GameState.finished then s.round + 1 else s.round }

/-- nextPlayer (App.tsx lines 86-100).  The boolean output records
whether the confetti side effect fired on this call. -/
def nextPlayer (s : AppState) : AppState × Bool :=
  if s.currentPlayerIndex < s.players.length - 1 then
    ({ s with
        currentPlayerIndex := s.currentPlayerIndex + 1
        isRevealed := false
        isPressed := false }, false)
  else
    ({ s with gameState := GameState.finished }, true)

/-- The advance event: the SIGUIENTE button invoking nextPlayer is
rendered only inside the `gameState === playing` branch of the JSX
(App.tsx lines 285, 355-361), so outside Playing the event cannot
fire and the state is unchanged. -/
def advanceEvent (s : AppState) : AppState × Bool :=
  if s.gameState = GameState.playing then nextPlayer s else (s, false)

/-- The press event: onPointerDown of the MANTENER button (App.tsx
lines 343-346), rendered only while Playing. -/
def pressEvent (s : AppState) : AppState :=
  if s.gameState = GameState.playing then { s with isPressed := true } else s

/-- The release event: onPointerUp / onPointerLeave of the MANTENER
button (App.tsx lines 347-348), rendered only while Playing. -/
def releaseEvent (s : AppState) : AppState :=
  if s.gameState = GameState.playing then { s with isPressed := false } else s

/-- The pure decision of handleDragEnd (App.tsx lines 117-132): new
value of the revealed flag given the vertical drag offset and
velocity and the prior flag. -/
def handleDragEnd (offsetY velocityY : ℚ) (revealed : Bool) : Bool :=
  if offsetY < -50 ∨ velocityY < -500 then true
  else if 30 < offsetY ∨ 500 < velocityY then false
  else revealed

/-- The drag-end event.  Per the gesture contract the handler belongs
to the reveal card, which exists only in the Playing view, so outside
Playing the event cannot fire and the state is unchanged. -/
def dragEndEvent (offsetY velocityY : ℚ) (s : AppState) : AppState :=
  if s.gameState = GameState.playing then
    { s with isRevealed := handleDragEnd offsetY velocityY s.isRevealed }
  else s

/-- resetGame (App.tsx lines 108-115): sets the phase to setup and
reseeds the roster.  It touches no other field. -/
def resetGame (s : AppState) : AppState :=
  { s with gameState := GameState.setup, players := defaultPlayers }

/-- Iterated advance events, accumulating how many times the confetti
effect fired. -/
def advanceN : Nat → AppState → AppState × Nat
  | 0, s => (s, 0)
  | k + 1, s =>
    ((advanceN k (advanceEvent s).1).1,
      (if (advanceEvent s).2 then 1 else 0) + (advanceN k (advanceEvent s).1).2)

/-- Arithmetic core of every floor-scaled draw: a draw below 1 scaled
by len lands strictly below len. -/
theorem ratIndex_lt (q : ℚ) (len : Nat) (h0 : 0 ≤ q) (h1 : q < 1) (hl : 0 < len) :
    ratIndex q len < len := by
  have hfl : Int.floor (q * (len : ℚ)) < (len : ℤ) := by
    rw [Int.floor_lt]
    push_cast
    calc q * (len : ℚ) < 1 * (len : ℚ) := by
          apply mul_lt_mul_of_pos_right h1
          exact_mod_cast hl
    _ = (len : ℚ) := one_mul _
  have hnn : (0 : ℤ) ≤ Int.floor (q * (len : ℚ)) := by
    apply Int.floor_nonneg.2
    positivity
  unfold ratIndex
  omega

/-- C1: for every roster of size at least 3, starting a round in
classic mode yields exactly one impostor position, and that position
lies in the interval from 0 inclusive to the roster size exclusive. -/
theorem classic_assignment (s : AppState) (r : Nat → ℚ) (words : List String)
    (hmode : s.gameMode = GameMode.classic) (hn : 3 ≤ s.players.length)
    (hr : ValidRand r) :
    (startGame r words s).impostorIndices.length = 1 ∧
    ∀ i ∈ (startGame r words s).impostorIndices, i < s.players.length := by
  have hidx : (startGame r words s).impostorIndices = [ratIndex (r 0) s.players.length] := by
    simp [startGame, roundIndices, hmode, classicIndices]
  refine ⟨by simp [hidx], ?_⟩
  intro i hi
  rw [hidx] at hi
  simp only [List.mem_singleton] at hi
  subst hi
  exact ratIndex_lt (r 0) s.players.length (hr 0).1 (hr 0).2 (by omega)

/-- Witness for C1 at a concrete state and stream. -/
theorem classic_assignment_witness :
    (startGame (fun _ => (1 : ℚ) / 2) ["SUN"] initState).impostorIndices.length = 1 ∧
    ∀ i ∈ (startGame (fun _ => (1 : ℚ) / 2) ["SUN"] initState).impostorIndices,
      i < initState.players.length :=
  classic_assignment initState (fun _ => (1 : ℚ) / 2) ["SUN"] rfl (by decide)
    (fun _ => by norm_num)

/-- Shifting a valid random stream keeps it valid. -/
theorem validRand_shift {r : Nat → ℚ} (hr : ValidRand r) : ValidRand (fun i => r (i + 1)) :=
  fun i => hr (i + 1)

/-- In a duplicate-free list, the element at a position does not occur
in the list with that position spliced out.  By induction on the
list: at the head the claim is the new-element freshness of nodup, at
a later position it reduces to the tail. -/
theorem getElem_not_mem_eraseIdx {α : Type} :
    ∀ (l : List α) (i : Nat) (h : i < l.length), l.Nodup → l[i] ∉ l.eraseIdx i := by
  intro l
  induction l with
  | nil =>
    intro i h
    simp at h
  | cons a t ih =>
    intro i h hnd
    rw [List.nodup_cons] at hnd
    match i with
    | 0 =>
      simpa using hnd.1
    | Nat.succ i =>
      have ht : i < t.length := by
        simp only [List.length_cons] at h
        omega
      simp only [List.getElem_cons_succ, List.eraseIdx_cons_succ, List.mem_cons]
      push_neg
      refine ⟨?_, ih i ht hnd.2⟩
      intro heq
      exact hnd.1 (heq ▸ List.getElem_mem ht)

/-- Every element drawn by the uncertainty loop comes from the pool. -/
theorem drawImpostors_mem (k : Nat) :
    ∀ (r : Nat → ℚ) (pool : List Nat), ValidRand r → k ≤ pool.length →
      ∀ x ∈ drawImpostors r k pool, x ∈ pool := by
  induction k with
  | zero =>
    intro r pool _ _ x hx
    simp [drawImpostors] at hx
  | succ k ih =>
    intro r pool hr hk x hx
    have hidx : ratIndex (r 0) pool.length < pool.length :=
      ratIndex_lt (r 0) pool.length (hr 0).1 (hr 0).2 (by omega)
    rw [drawImpostors] at hx
    rcases List.mem_cons.1 hx with h | h
    · rw [List.getD_eq_getElem pool 0 hidx] at h
      subst h
      exact List.getElem_mem hidx
    · have hk2 : k ≤ (pool.eraseIdx (ratIndex (r 0) pool.length)).length := by
        rw [List.length_eraseIdx_of_lt hidx]
        omega
      exact List.eraseIdx_subset _ _ (ih _ _ (validRand_shift hr) hk2 x h)

/-- The uncertainty loop draws exactly as many elements as requested
while the pool lasts. -/
theorem drawImpostors_length (k : Nat) :
    ∀ (r : Nat → ℚ) (pool : List Nat), ValidRand r → k ≤ pool.length →
      (drawImpostors r k pool).length = k := by
  induction k with
  | zero =>
    intro r pool _ _
    simp [drawImpostors]
  | succ k ih =>
    intro r pool hr hk
    have hidx : ratIndex (r 0) pool.length < pool.length :=
      ratIndex_lt (r 0) pool.length (hr 0).1 (hr 0).2 (by omega)
    have hk2 : k ≤ (pool.eraseIdx (ratIndex (r 0) pool.length)).length := by
      rw [List.length_eraseIdx_of_lt hidx]
      omega
    rw [drawImpostors]
    simp [ih _ _ (validRand_shift hr) hk2]

/-- Splicing the drawn element out of the pool makes the draws
pairwise distinct. -/
theorem drawImpostors_nodup (k : Nat) :
    ∀ (r : Nat → ℚ) (pool : List Nat), ValidRand r → k ≤ pool.length →
      pool.Nodup → (drawImpostors r k pool).Nodup := by
  induction k with
  | zero =>
    intro r pool _ _ _
    simp [drawImpostors]
  | succ k ih =>
    intro r pool hr hk hp
    have hidx : ratIndex (r 0) pool.length < pool.length :=
      ratIndex_lt (r 0) pool.length (hr 0).1 (hr 0).2 (by omega)
    have hk2 : k ≤ (pool.eraseIdx (ratIndex (r 0) pool.length)).length := by
      rw [List.length_eraseIdx_of_lt hidx]
      omega
    have herase : (pool.eraseIdx (ratIndex (r 0) pool.length)).Nodup :=
      (List.eraseIdx_sublist pool (ratIndex (r 0) pool.length)).nodup hp
    rw [drawImpostors, List.nodup_cons]
    refine ⟨?_, ih _ _ (validRand_shift hr) hk2 herase⟩
    intro hmem
    rw [List.getD_eq_getElem pool 0 hidx] at hmem
    exact getElem_not_mem_eraseIdx pool _ hidx hp
      (drawImpostors_mem k _ _ (validRand_shift hr) hk2 _ hmem)

/-- The uncertainty-mode impostor count lies between 1 and the roster
size minus one. -/
theorem numImpostors_bounds (n : Nat) (q : ℚ) (h0 : 0 ≤ q) (h1 : q < 1)
    (hn : 3 ≤ n) : 1 ≤ numImpostors n q ∧ numImpostors n q ≤ n - 1 := by
  have h : ratIndex q (n - 1) < n - 1 := ratIndex_lt q (n - 1) h0 h1 (by omega)
  unfold numImpostors
  omega

/-- C2: for every roster of size at least 3, starting a round in
uncertainty mode yields an impostor-position list whose length equals
the drawn count, lies between 1 and roster size minus one, and whose
positions are pairwise distinct and each below the roster size;
the list is produced by splicing the drawn count of uniformly indexed
elements one at a time out of the pool of all indices. -/
theorem uncertainty_assignment (s : AppState) (r : Nat → ℚ) (words : List String)
    (hmode : s.gameMode = GameMode.uncertainty) (hn : 3 ≤ s.players.length)
    (hr : ValidRand r) :
    (startGame r words s).impostorIndices.length = numImpostors s.players.length (r 0) ∧
    1 ≤ (startGame r words s).impostorIndices.length ∧
    (startGame r words s).impostorIndices.length ≤ s.players.length - 1 ∧
    (startGame r words s).impostorIndices.Nodup ∧
    ∀ i ∈ (startGame r words s).impostorIndices, i < s.players.length := by
  have hb := numImpostors_bounds s.players.length (r 0) (hr 0).1 (hr 0).2 hn
  have hidx : (startGame r words s).impostorIndices =
      drawImpostors (fun i => r (i + 1)) (numImpostors s.players.length (r 0))
        (List.range s.players.length) := by
    simp [startGame, roundIndices, hmode]
  have hkle : numImpostors s.players.length (r 0) ≤ (List.range s.players.length).length := by
    rw [List.length_range]
    omega
  have hlen := drawImpostors_length (numImpostors s.players.length (r 0))
    (fun i => r (i + 1)) (List.range s.players.length) (validRand_shift hr) hkle
  refine ⟨by rw [hidx, hlen], by rw [hidx, hlen]; omega, by rw [hidx, hlen]; omega, ?_, ?_⟩
  · rw [hidx]
    exact drawImpostors_nodup _ _ _ (validRand_shift hr) hkle (List.nodup_range _)
  · intro i hi
    rw [hidx] at hi
    have := drawImpostors_mem (numImpostors s.players.length (r 0))
      (fun i => r (i + 1)) (List.range s.players.length) (validRand_shift hr) hkle i hi
    exact List.mem_range.1 this

/-- The initial state switched to uncertainty mode, as the mode
selector button does (App.tsx line 260). -/
def uncertaintyInit : AppState :=
  { initState with gameMode := GameMode.uncertainty }

/-- Witness for C2 at a concrete state and stream. -/
theorem uncertainty_assignment_witness :
    (startGame (fun _ => (1 : ℚ) / 2) ["SUN"] uncertaintyInit).impostorIndices.length =
      numImpostors uncertaintyInit.players.length ((1 : ℚ) / 2) ∧
    1 ≤ (startGame (fun _ => (1 : ℚ) / 2) ["SUN"] uncertaintyInit).impostorIndices.length ∧
    (startGame (fun _ => (1 : ℚ) / 2) ["SUN"] uncertaintyInit).impostorIndices.length ≤
      uncertaintyInit.players.length - 1 ∧
    (startGame (fun _ => (1 : ℚ) / 2) ["SUN"] uncertaintyInit).impostorIndices.Nodup ∧
    ∀ i ∈ (startGame (fun _ => (1 : ℚ) / 2) ["SUN"] uncertaintyInit).impostorIndices,
      i < uncertaintyInit.players.length :=
  uncertainty_assignment uncertaintyInit (fun _ => (1 : ℚ) / 2) ["SUN"] rfl (by decide)
    (fun _ => by norm_num)

/-- While at least one position remains ahead, a block of advance
events walks the player pointer forward, resets both transient flags,
and never fires the confetti effect. -/
theorem advanceN_playing (k : Nat) :
    ∀ s : AppState, s.gameState = GameState.playing →
      s.currentPlayerIndex + k ≤ s.players.length - 1 → 1 ≤ k →
      advanceN k s =
        ({ s with
            currentPlayerIndex := s.currentPlayerIndex + k
            isRevealed := false
            isPressed := false }, 0) := by
  induction k with
  | zero =>
    intro s _ _ hk
    omega
  | succ k ih =>
    intro s hs hle _
    have hstep : advanceEvent s =
        ({ s with
            currentPlayerIndex := s.currentPlayerIndex + 1
            isRevealed := false
            isPressed := false }, false) := by
      rw [advanceEvent, if_pos hs, nextPlayer, if_pos (by omega)]
    rcases Nat.eq_zero_or_pos k with hk0 | hk1
    · subst hk0
      rw [advanceN, hstep]
      simp [advanceN]
    · rw [advanceN, hstep]
      rw [ih _ ?_ ?_ hk1]
      · simp [AppState.mk.injEq]
        omega
      · exact hs
      · simp
        omega

/-- Composing iterated advance blocks: states chain and confetti
counts add. -/
theorem advanceN_add (a b : Nat) :
    ∀ s : AppState, advanceN (a + b) s =
      ((advanceN b (advanceN a s).1).1,
        (advanceN a s).2 + (advanceN b (advanceN a s).1).2) := by
  induction a with
  | zero =>
    intro s
    simp [advanceN]
  | succ a ih =>
    intro s
    rw [show a + 1 + b = (a + b) + 1 by omega]
    rw [advanceN, ih (advanceEvent s).1, advanceN]
    simp [Nat.add_assoc]

/-- On the last roster position, a single advance event flips the
phase to Finished and fires the confetti effect once. -/
theorem advanceN_one_last (s : AppState) (hs : s.gameState = GameState.playing)
    (hl : ¬ s.currentPlayerIndex < s.players.length - 1) :
    advanceN 1 s = ({ s with gameState := GameState.finished }, 1) := by
  rw [advanceN, advanceEvent, if_pos hs, nextPlayer, if_neg hl]
  simp [advanceN]

/-- C3: from a fresh round over n players, the first n - 1 advance
events each keep the phase Playing, move the pointer to position k,
reset both transient flags, and fire no confetti; the n-th advance
event flips the phase to Finished with the confetti effect fired
exactly once in the whole round. -/
theorem turn_traversal (s : AppState) (r : Nat → ℚ) (words : List String) (n : Nat)
    (hn : 3 ≤ n) (hlen : s.players.length = n) :
    (∀ k, 1 ≤ k → k ≤ n - 1 →
      (advanceN k (startGame r words s)).1.gameState = GameState.playing ∧
      (advanceN k (startGame r words s)).1.currentPlayerIndex = k ∧
      (advanceN k (startGame r words s)).1.isRevealed = false ∧
      (advanceN k (startGame r words s)).1.isPressed = false ∧
      (advanceN k (startGame r words s)).2 = 0) ∧
    (advanceN n (startGame r words s)).1.gameState = GameState.finished ∧
    (advanceN n (startGame r words s)).2 = 1 := by
  have hs0 : (startGame r words s).gameState = GameState.playing := rfl
  have hi0 : (startGame r words s).currentPlayerIndex = 0 := rfl
  have hp0 : (startGame r words s).players = s.players := rfl
  constructor
  · intro k hk1 hk2
    rw [advanceN_playing k (startGame r words s) hs0 (by rw [hi0, hp0, hlen]; omega) hk1]
    simp [hi0, hs0]
  · have hsplit := advanceN_add (n - 1) 1 (startGame r words s)
    rw [show n - 1 + 1 = n by omega] at hsplit
    have hfirst := advanceN_playing (n - 1) (startGame r words s) hs0
      (by rw [hi0, hp0, hlen]; omega) (by omega)
    have h1g : (advanceN (n - 1) (startGame r words s)).1.gameState = GameState.playing := by
      rw [hfirst]
      simp [hs0]
    have h1i : (advanceN (n - 1) (startGame r words s)).1.currentPlayerIndex = n - 1 := by
      rw [hfirst]
      simp [hi0]
    have h1p : (advanceN (n - 1) (startGame r words s)).1.players.length = n := by
      rw [hfirst]
      simp [hp0, hlen]
    have h1c : (advanceN (n - 1) (startGame r words s)).2 = 0 := by
      rw [hfirst]
    have hlast := advanceN_one_last (advanceN (n - 1) (startGame r words s)).1 h1g
      (by rw [h1i, h1p]; omega)
    rw [hsplit, hlast, h1c]
    simp

/-- Witness for C3 at the concrete default state with three players:
two intermediate advances stay Playing, the third finishes the round
with one confetti burst. -/
theorem turn_traversal_witness :
    ((advanceN 2 (startGame (fun _ => (1 : ℚ) / 2) ["SUN"] initState)).1.gameState =
      GameState.playing ∧
     (advanceN 2 (startGame (fun _ => (1 : ℚ) / 2) ["SUN"] initState)).1.currentPlayerIndex = 2) ∧
    (advanceN 3 (startGame (fun _ => (1 : ℚ) / 2) ["SUN"] initState)).1.gameState =
      GameState.finished ∧
    (advanceN 3 (startGame (fun _ => (1 : ℚ) / 2) ["SUN"] initState)).2 = 1 := by
  have h := turn_traversal initState (fun _ => (1 : ℚ) / 2) ["SUN"] 3 (by decide) (by decide)
  have h2 := h.1 2 (by decide) (by decide)
  exact ⟨⟨h2.1, h2.2.1⟩, h.2.1, h.2.2⟩

/-- C7: the round counter starts at 1, startGame from Finished adds
exactly one, startGame from Setup leaves it unchanged (so the first
start from Setup leaves it at 1), and resetGame does not touch it. -/
theorem round_counter (s : AppState) (r : Nat → ℚ) (words : List String) :
    initState.round = 1 ∧
    (s.gameState = GameState.finished → (startGame r words s).round = s.round + 1) ∧
    (s.gameState = GameState.setup → (startGame r words s).round = s.round) ∧
    (startGame r words initState).round = 1 ∧
    (resetGame s).round = s.round := by
  refine ⟨rfl, ?_, ?_, ?_, rfl⟩
  · intro h
    simp [startGame, h]
  · intro h
    simp [startGame, h]
  · simp [startGame, initState]

/-- Witness for C7: a concrete Finished state bumps the counter, the
initial Setup state does not. -/
theorem round_counter_witness :
    initState.round = 1 ∧
    ({ initState with gameState := GameState.finished } : AppState).gameState =
      GameState.finished ∧
    (startGame (fun _ => (1 : ℚ) / 2) ["SUN"]
      { initState with gameState := GameState.finished }).round =
      ({ initState with gameState := GameState.finished } : AppState).round + 1 ∧
    (startGame (fun _ => (1 : ℚ) / 2) ["SUN"] initState).round = 1 ∧
    (resetGame initState).round = initState.round := by
  have h := round_counter { initState with gameState := GameState.finished }
    (fun _ => (1 : ℚ) / 2) ["SUN"]
  exact ⟨h.1, rfl, h.2.1 rfl, h.2.2.2.1, (round_counter initState (fun _ => (1 : ℚ) / 2)
    ["SUN"]).2.2.2.2⟩

/-- C8: while the phase is not Playing, the advance, press, release
and drag-end events are all no-ops on the entire state and fire no
side effect, because the controls carrying their handlers are only
rendered in the Playing view. -/
theorem non_playing_noop (s : AppState) (offsetY velocityY : ℚ)
    (hs : s.gameState ≠ GameState.playing) :
    advanceEvent s = (s, false) ∧
    pressEvent s = s ∧
    releaseEvent s = s ∧
    dragEndEvent offsetY velocityY s = s := by
  refine ⟨?_, ?_, ?_, ?_⟩
  · rw [advanceEvent, if_neg hs]
  · rw [pressEvent, if_neg hs]
  · rw [releaseEvent, if_neg hs]
  · rw [dragEndEvent, if_neg hs]

/-- Witness for C8 at the initial Setup state. -/
theorem non_playing_noop_witness :
    advanceEvent initState = (initState, false) ∧
    pressEvent initState = initState ∧
    releaseEvent initState = initState ∧
    dragEndEvent 0 0 initState = initState :=
  non_playing_noop initState 0 0 (by decide)

/-- A reachable Finished state carrying set transient flags: the last
player held the card revealed and kept the button pressed while the
round ended. -/
def finishedFlags : AppState :=
  { initState with
      gameState := GameState.finished
      isRevealed := true
      isPressed := true }

/-- C9 counterexample: resetGame does not clear the transient flags.
At a Finished state with both flags set, the state after resetGame
still has both flags set, contradicting the claim that reset makes
revealed and pressed false. -/
theorem reset_counterexample :
    ¬ ((resetGame finishedFlags).isRevealed = false ∧
       (resetGame finishedFlags).isPressed = false) := by
  decide

/-- C9 amended: resetGame moves the phase to Setup and fully replaces
the roster with the default three-player seed, but leaves the
revealed and pressed flags (and the round counter) unchanged; the
flags are cleared at the next round start instead. -/
theorem reset_amended (s : AppState) :
    (resetGame s).gameState = GameState.setup ∧
    (resetGame s).players = defaultPlayers ∧
    (resetGame s).isRevealed = s.isRevealed ∧
    (resetGame s).isPressed = s.isPressed ∧
    (resetGame s).round = s.round :=
  ⟨rfl, rfl, rfl, rfl, rfl⟩

/-- C10: for a non-empty word list, the word stored by startGame is
the element of the list at a floor-scaled random index, hence a
member of the list. -/
theorem word_validity (s : AppState) (r : Nat → ℚ) (words : List String)
    (hw : words ≠ []) (hr : ValidRand r) :
    (startGame r words s).currentWord =
      words.getD (ratIndex (r (roundDraws s.gameMode s.players.length r)) words.length) "" ∧
    (startGame r words s).currentWord ∈ words := by
  refine ⟨rfl, ?_⟩
  have hl : 0 < words.length := List.length_pos.2 hw
  have hidx : ratIndex (r (roundDraws s.gameMode s.players.length r)) words.length <
      words.length :=
    ratIndex_lt _ _ (hr _).1 (hr _).2 hl
  have : (startGame r words s).currentWord =
      words[ratIndex (r (roundDraws s.gameMode s.players.length r)) words.length] := by
    show words.getD _ "" = _
    rw [List.getD_eq_getElem words "" hidx]
  rw [this]
  exact List.getElem_mem hidx

/-- Witness for C10 at a concrete state, stream and word list. -/
theorem word_validity_witness :
    (startGame (fun _ => (1 : ℚ) / 2) ["SUN", "MAR"] initState).currentWord =
      (["SUN", "MAR"] : List String).getD
        (ratIndex ((1 : ℚ) / 2) (["SUN", "MAR"] : List String).length) "" ∧
    (startGame (fun _ => (1 : ℚ) / 2) ["SUN", "MAR"] initState).currentWord ∈
      ["SUN", "MAR"] := by
  have h := word_validity initState (fun _ => (1 : ℚ) / 2) ["SUN", "MAR"]
    (by decide) (fun _ => by norm_num)
  exact h

/-- Filtering out an identifier nobody carries keeps the roster
intact. -/
theorem filter_ne_of_not_mem (players : List Player) (pid : String)
    (h : pid ∉ players.map Player.id) :
    players.filter (fun p => p.id != pid) = players := by
  apply List.filter_eq_self.2
  intro p hp
  simp only [bne_iff_ne, ne_eq]
  intro heq
  exact h (heq ▸ List.mem_map_of_mem Player.id hp)

/-- With pairwise distinct identifiers, filtering one identifier out
removes at most one player. -/
theorem filter_ne_length_ge (players : List Player) (pid : String)
    (h : (players.map Player.id).Nodup) :
    players.length ≤ (players.filter (fun p => p.id != pid)).length + 1 := by
  induction players with
  | nil => simp
  | cons p ps ih =>
    rw [List.map_cons, List.nodup_cons] at h
    by_cases hp : p.id = pid
    · have hkeep : ps.filter (fun q => q.id != pid) = ps :=
        filter_ne_of_not_mem ps pid (hp ▸ h.1)
      rw [List.filter_cons]
      simp [hp, hkeep]
    · rw [List.filter_cons]
      have hcond : (p.id != pid) = true := by
        simp [hp]
      rw [if_pos hcond]
      have := ih h.2
      simp only [List.length_cons]
      omega

/-- removePlayer keeps roster identifiers pairwise distinct. -/
theorem removePlayer_nodup (pid : String) (players : List Player)
    (hnd : (players.map Player.id).Nodup) :
    ((removePlayer pid players).map Player.id).Nodup := by
  rw [removePlayer]
  split_ifs with h
  · exact ((List.filter_sublist players).map Player.id).nodup hnd
  · exact hnd

/-- removePlayer never takes a roster of size at least 3 below 3. -/
theorem removePlayer_length_ge (pid : String) (players : List Player)
    (hnd : (players.map Player.id).Nodup) (h3 : 3 ≤ players.length) :
    3 ≤ (removePlayer pid players).length := by
  rw [removePlayer]
  split_ifs with h
  · have := filter_ne_length_ge players pid hnd
    omega
  · exact h3

/-- Any sequence of removePlayer calls keeps the floor of 3 players. -/
theorem removeAll_floor (pids : List String) :
    ∀ players : List Player, (players.map Player.id).Nodup → 3 ≤ players.length →
      3 ≤ (removeAll pids players).length := by
  induction pids with
  | nil =>
    intro players _ h3
    exact h3
  | cons pid pids ih =>
    intro players hnd h3
    have hstep : removeAll (pid :: pids) players = removeAll pids (removePlayer pid players) := by
      simp [removeAll]
    rw [hstep]
    exact ih _ (removePlayer_nodup pid players hnd)
      (removePlayer_length_ge pid players hnd h3)

/-- C4: over any roster with pairwise distinct identifiers and at
least 3 players, every sequence of removes keeps at least 3 players;
a remove whose filtered result would hold fewer than 3 players leaves
the roster unchanged, and a remove naming an absent identifier leaves
the roster unchanged. -/
theorem roster_floor (players : List Player)
    (hnd : (players.map Player.id).Nodup) (h3 : 3 ≤ players.length) :
    (∀ pids : List String, 3 ≤ (removeAll pids players).length) ∧
    (∀ pid : String, (players.filter (fun p => p.id != pid)).length < 3 →
      removePlayer pid players = players) ∧
    (∀ pid : String, pid ∉ players.map Player.id → removePlayer pid players = players) := by
  refine ⟨fun pids => removeAll_floor pids players hnd h3, ?_, ?_⟩
  · intro pid hsmall
    rw [removePlayer]
    split_ifs with h
    · exfalso
      have := filter_ne_length_ge players pid hnd
      omega
    · rfl
  · intro pid habs
    rw [removePlayer]
    split_ifs with h
    · exact filter_ne_of_not_mem players pid habs
    · rfl

/-- Witness for C4 on the default roster. -/
theorem roster_floor_witness :
    3 ≤ (removeAll ["1", "2"] defaultPlayers).length ∧
    removePlayer "1" defaultPlayers = defaultPlayers ∧
    removePlayer "9" defaultPlayers = defaultPlayers := by
  have h := roster_floor defaultPlayers (by decide) (by decide)
  exact ⟨h.1 ["1", "2"], h.2.1 "1" (by decide), h.2.2 "9" (by decide)⟩

/-- C5: the drag-end decision sets revealed exactly on an upward
offset past -50 or upward velocity past -500, otherwise hides exactly
on a downward offset past 30 or downward velocity past 500, and in
all remaining cases, the boundary values included, keeps the prior
flag. -/
theorem dragEnd_thresholds (offsetY velocityY : ℚ) (rev : Bool) :
    (handleDragEnd offsetY velocityY false = true ↔
      (offsetY < -50 ∨ velocityY < -500)) ∧
    (handleDragEnd offsetY velocityY true = false ↔
      (¬(offsetY < -50 ∨ velocityY < -500) ∧ (30 < offsetY ∨ 500 < velocityY))) ∧
    (¬(offsetY < -50 ∨ velocityY < -500) → ¬(30 < offsetY ∨ 500 < velocityY) →
      handleDragEnd offsetY velocityY rev = rev) := by
  unfold handleDragEnd
  refine ⟨?_, ?_, ?_⟩ <;> intros <;> split_ifs <;> simp_all

/-- Witness for C5 at the literal threshold inputs of the spec,
boundary values included. -/
theorem dragEnd_thresholds_witness :
    handleDragEnd (-60) 0 false = true ∧
    handleDragEnd 0 (-600) false = true ∧
    handleDragEnd 40 0 true = false ∧
    handleDragEnd 10 10 true = true ∧
    handleDragEnd (-50) (-500) true = true ∧
    handleDragEnd 30 500 false = false := by
  refine ⟨?_, ?_, ?_, ?_, ?_, ?_⟩
  · exact (dragEnd_thresholds (-60) 0 false).1.mpr (Or.inl (by norm_num))
  · exact (dragEnd_thresholds 0 (-600) false).1.mpr (Or.inr (by norm_num))
  · exact (dragEnd_thresholds 40 0 true).2.1.mpr
      ⟨by push_neg; constructor <;> norm_num, Or.inl (by norm_num)⟩
  · exact (dragEnd_thresholds 10 10 true).2.2
      (by push_neg; constructor <;> norm_num) (by push_neg; constructor <;> norm_num)
  · exact (dragEnd_thresholds (-50) (-500) true).2.2
      (by push_neg; constructor <;> norm_num) (by push_neg; constructor <;> norm_num)
  · have h := (dragEnd_thresholds 30 500 false).2.2
      (by push_neg; constructor <;> norm_num) (by push_neg; constructor <;> norm_num)
    exact h

/-- Insertion of one element into a list, steered by a stream of
comparator outcomes: coin k true means the random comparator
(`() => Math.random() - 0.5`, App.tsx line 103) returned a negative
value on its k-th call, placing the inserted element first.  Returns
the list and the next unused coin position. -/
def insertRand (c : Nat → Bool) (a : Player) : List Player → Nat → List Player × Nat
  | [], k => ([a], k)
  | b :: l, k =>
    if c k then (a :: b :: l, k + 1)
    else
      let p := insertRand c a l (k + 1)
      (b :: p.1, p.2)

/-- A deterministic comparison sort (insertion sort) steered by the
comparator outcome stream.  `Array.prototype.sort` with an
inconsistent comparator is implementation-defined but always
rearranges the array through comparator calls; this models one such
determinization, each comparator call consuming one coin. -/
def sortRand (c : Nat → Bool) : List Player → Nat → List Player × Nat
  | [], k => ([], k)
  | a :: l, k =>
    let p := sortRand c l k
    insertRand c a p.1 p.2

/-- shufflePlayers (App.tsx lines 102-106):
`[...players].sort(() => Math.random() - 0.5)`, with the comparator
outcomes drawn from the coin stream. -/
def shufflePlayers (c : Nat → Bool) (players : List Player) : List Player :=
  (sortRand c players 0).1

/-- All coin vectors of a given length, each equally likely when the
comparator draws are uniform on [0, 1). -/
def boolLists : Nat → List (List Bool)
  | 0 => [[]]
  | n + 1 => (boolLists n).map (List.cons true) ++ (boolLists n).map (List.cons false)

/-- How many of the eight equally likely three-coin comparator
outcome vectors make the shuffle of the default roster produce a
given ordering.  A uniform shuffle would give every ordering of three
players the same frequency, which 8 outcomes cannot spread over 6
orderings. -/
def shuffleCount (target : List Player) : Nat :=
  (boolLists 3).countP (fun bs => shufflePlayers (fun k => bs.getD k false) defaultPlayers == target)

/-- Randomized insertion produces the inserted element together with
the old elements, in some order. -/
theorem insertRand_perm (c : Nat → Bool) (a : Player) :
    ∀ (l : List Player) (k : Nat), (insertRand c a l k).1.Perm (a :: l) := by
  intro l
  induction l with
  | nil =>
    intro k
    simp [insertRand]
  | cons b l ih =>
    intro k
    rw [insertRand]
    split_ifs with h
    · simp
    · exact (List.Perm.cons b (ih (k + 1))).trans (List.Perm.swap a b l)

/-- The randomized sort rearranges exactly the input elements. -/
theorem sortRand_perm (c : Nat → Bool) :
    ∀ (l : List Player) (k : Nat), (sortRand c l k).1.Perm l := by
  intro l
  induction l with
  | nil =>
    intro k
    simp [sortRand]
  | cons a l ih =>
    intro k
    rw [sortRand]
    exact (insertRand_perm c a _ _).trans (List.Perm.cons a (ih k))

/-- C6 counterexample: the comparator-coin frequencies of shuffle
outcomes are not uniform.  Over the eight equally likely three-coin
comparator vectors, the identity ordering of the default roster is
produced by two vectors while the ordering with the first two
players swapped is produced by one, so the orderings are not equally
likely (uniformity would need equal counts; indeed no assignment of
8 equiprobable outcomes to 6 orderings can be uniform). -/
theorem shuffle_not_uniform :
    shuffleCount defaultPlayers ≠
      shuffleCount [⟨"2", "Jugador 2"⟩, ⟨"1", "Jugador 1"⟩, ⟨"3", "Jugador 3"⟩] := by
  decide

/-- C6 amended: the shuffle output is a rearrangement of exactly the
same players, identifiers and names untouched, only the order
differing; the ordering distribution is whatever the random-comparator
sort induces, which is not uniform. -/
theorem shuffle_preserves_membership (c : Nat → Bool) (players : List Player) :
    (shufflePlayers c players).Perm players :=
  sortRand_perm c players 0

end ElImpostor
